import Mathlib

/-!
# Verification of the consensus-encoding layer of `learn-bitcoin-rs`

Shallow embedding of `src/consensus/encode.rs`, `src/util/endian.rs`,
`src/internal_macros.rs` (`impl_consensus_encoding!`) and
`src/network/message.rs` (`CommandString`), together with theorems settling
the specification claims about them.

Modelling conventions:
* A byte stream is a `List Nat` whose elements are byte values (`< 256`
  wherever the Rust type system guarantees `u8`).
* An encoder mirrors `consensus_encode`: it returns the bytes written to the
  sink together with the byte count the Rust function returns
  (`α → List Nat × Nat`).  `CommandString`'s encoder is fallible and returns
  `Except Err (List Nat × Nat)`.
* A decoder mirrors `consensus_decode` over an in-memory reader: it consumes
  bytes from the front of the stream and returns the decoded value together
  with the remaining suffix (`List Nat → Except Err (α × List Nat)`).
  The cursor position after a decode is the number of consumed bytes,
  i.e. `input.length - rest.length`.
* Machine integers are `Nat` (resp. `Int` for the signed types) with
  explicit `% 2 ^ w` where wrap-around matters; `usize` is 64-bit wide, so
  `checked_mul` on `usize` fails exactly when the product reaches `2 ^ 64`.
-/

set_option maxRecDepth 10000

namespace BitcoinEnc

/-- The error enum `consensus::encode::Error` from `src/consensus/encode.rs`
(lines 28-68).  `Io(io::Error)` is collapsed to a single constructor: the only
I/O errors that can arise from an in-memory cursor are short reads.
`UnrecognizedNetworkCommand(String)` carries the command's characters as their
Unicode code points. -/
inductive Err where
  /-- `Error::Io` — an I/O error (short read on an in-memory cursor). -/
  | ioError : Err
  /-- `Error::UnexpectedNetworkMagic { expected, actual }`. -/
  | unexpectedNetworkMagic (expected actual : Nat) : Err
  /-- `Error::OversizedVectorAllocation { requested, max }`. -/
  | oversizedVectorAllocation (requested max : Nat) : Err
  /-- `Error::InvalidChecksum { expected, actual }`. -/
  | invalidChecksum (expected actual : List Nat) : Err
  /-- `Error::NonMinimalVarInt`. -/
  | nonMinimalVarInt : Err
  /-- `Error::UnknownNetworkMagic(u32)`. -/
  | unknownNetworkMagic (magic : Nat) : Err
  /-- `Error::ParseFailed(&'static str)`. -/
  | parseFailed (msg : String) : Err
  /-- `Error::UnsupportedSegwitFlag(u8)`. -/
  | unsupportedSegwitFlag (flag : Nat) : Err
  /-- `Error::UnrecognizedNetworkCommand(String)`. -/
  | unrecognizedNetworkCommand (cmd : List Nat) : Err
  /-- `Error::UnknownInventoryType(u32)`. -/
  | unknownInventoryType (ty : Nat) : Err
deriving DecidableEq, Repr

/-- `ReadExt::read_u8` (encode.rs lines 292-297): read one byte from the
source; a short read surfaces as the I/O error. -/
def readU8 : List Nat → Except Err (Nat × List Nat)
  | [] => .error .ioError
  | b :: rest => .ok (b, rest)

/-- `ReadExt::read_slice` / `read_exact` into a buffer of length `n`
(encode.rs lines 308-311): read exactly `n` bytes, failing with the I/O error
when fewer are available. -/
def readSlice (n : Nat) (s : List Nat) : Except Err (List Nat × List Nat) :=
  if n ≤ s.length then .ok (s.take n, s.drop n) else .error .ioError

/-- Little-endian byte decomposition of a value into `w` bytes: byte `i` is
`(v >> (8*i)) & 0xFF`, written arithmetically.  This is the little-endian
counterpart of `define_be_to_array` in `src/util/endian.rs` and embeds the
`u16/u32/u64_to_array_le` family used by `WriteExt` (encode.rs lines 258-264). -/
def natToLeBytes : Nat → Nat → List Nat
  | 0, _ => []
  | w + 1, v => v % 256 :: natToLeBytes w (v / 256)

/-- Little-endian recomposition `res |= slice[i] << (i*8)` of
`define_slice_to_le` in `src/util/endian.rs` (lines 14-26), written
arithmetically (for byte values the shifted-or is plain addition of disjoint
bit ranges). -/
def leBytesToNat : List Nat → Nat
  | [] => 0
  | b :: bs => b + 256 * leBytesToNat bs

/-- `ReadExt::read_u16/u32/u64` (encode.rs lines 285-287): read a `w`-byte
slice and recompose it little-endian. -/
def readLeNat (w : Nat) (s : List Nat) : Except Err (Nat × List Nat) := do
  let (bs, rest) ← readSlice w s
  .ok (leBytesToNat bs, rest)

theorem natToLeBytes_length (w v : Nat) : (natToLeBytes w v).length = w := by
  induction w generalizing v with
  | zero => rfl
  | succ k ih => simp [natToLeBytes, ih]

theorem natToLeBytes_lt (w v : Nat) : ∀ b ∈ natToLeBytes w v, b < 256 := by
  induction w generalizing v with
  | zero => simp [natToLeBytes]
  | succ k ih =>
    intro b hb
    simp only [natToLeBytes, List.mem_cons] at hb
    rcases hb with h | h
    · omega
    · exact ih _ _ h

/-- `Except.ok` on the left of a bind reduces. -/
theorem ok_bind {α β : Type} (a : α) (f : α → Except Err β) :
    (Except.ok a : Except Err α) >>= f = f a := rfl

/-- `Except.error` on the left of a bind short-circuits. -/
theorem error_bind {α β : Type} (e : Err) (f : α → Except Err β) :
    (Except.error e : Except Err α) >>= f = .error e := rfl

theorem leBytesToNat_natToLeBytes (w v : Nat) :
    leBytesToNat (natToLeBytes w v) = v % 2 ^ (8 * w) := by
  induction w generalizing v with
  | zero => simp [natToLeBytes, leBytesToNat, Nat.mod_one]
  | succ k ih =>
    simp only [natToLeBytes, leBytesToNat, ih]
    have h1 : 2 ^ (8 * (k + 1)) = 256 * 2 ^ (8 * k) := by ring
    rw [h1, Nat.mod_mul]

theorem readSlice_append (l rest : List Nat) :
    readSlice l.length (l ++ rest) = .ok (l, rest) := by
  simp [readSlice, List.take_append, List.drop_append]

theorem readLeNat_natToLeBytes (w v : Nat) (rest : List Nat) :
    readLeNat w (natToLeBytes w v ++ rest) = .ok (v % 2 ^ (8 * w), rest) := by
  have h := readSlice_append (natToLeBytes w v) rest
  rw [natToLeBytes_length] at h
  simp [readLeNat, h, ok_bind, leBytesToNat_natToLeBytes]

/-! ## Primitive codecs (`impl_int_encodable!`, encode.rs lines 336-362) -/

/-- `consensus_encode` for an unsigned integer of `w` bytes: emit the value's
little-endian bytes and return `mem::size_of`, i.e. `w`.  (`to_le` is the
identity on the value.) -/
def uintEncode (w v : Nat) : List Nat × Nat := (natToLeBytes w v, w)

/-- `consensus_decode` for an unsigned integer of `w` bytes: `ReadExt`'s
little-endian read (`from_le` is the identity on the value). -/
def uintDecode (w : Nat) (s : List Nat) : Except Err (Nat × List Nat) :=
  readLeNat w s

/-- `consensus_encode` for a signed integer of `w` bytes: emit the
little-endian bytes of the value's two's-complement bit pattern. -/
def intEncode (w : Nat) (v : Int) : List Nat × Nat :=
  (natToLeBytes w (v % (2 ^ (8 * w) : Int)).toNat, w)

/-- `consensus_decode` for a signed integer of `w` bytes: read the `w`-byte
little-endian value and reinterpret the bit pattern as two's complement. -/
def intDecode (w : Nat) (s : List Nat) : Except Err (Int × List Nat) := do
  let (n, rest) ← readLeNat w s
  .ok (if n < 2 ^ (8 * w - 1) then (n : Int) else (n : Int) - 2 ^ (8 * w), rest)

/-- `impl Encodable for bool` (encode.rs lines 440-446): one byte, `1` for
`true`, `0` for `false`, returning count 1. -/
def boolEncode (v : Bool) : List Nat × Nat := ([if v then 1 else 0], 1)

/-- `impl Decodable for bool` (encode.rs lines 448-453): read one byte and
map any nonzero value to `true`. -/
def boolDecode (s : List Nat) : Except Err (Bool × List Nat) := do
  let (n, rest) ← readU8 s
  .ok (n != 0, rest)

/-! ## VarInt (encode.rs lines 331-438) -/

/-- `MAX_VEC_SIZE` (encode.rs line 315). -/
def MAX_VEC_SIZE : Nat := 4000000

/-- `VarInt::len` (encode.rs lines 364-377), translated arm by arm in source
order; the third arm (`0xFD ... 0xFFFF => 5`) is unreachable because the
second arm already covers its range, so magnitudes in
`0x10000 ..= 0xFFFFFFFF` fall through to the wildcard arm and yield 9. -/
def varIntLen (v : Nat) : Nat :=
  if v ≤ 0xFC then 1
  else if 0xFC ≤ v ∧ v ≤ 0xFFFF then 3
  else if 0xFD ≤ v ∧ v ≤ 0xFFFF then 5
  else 9

/-- `impl Encodable for VarInt` (encode.rs lines 379-404).  The magnitude is
a `u64`; the casts `as u8`/`as u16`/`as u32` truncate, which `natToLeBytes`
performs implicitly. -/
def varIntEncode (v : Nat) : List Nat × Nat :=
  if v ≤ 0xFC then (natToLeBytes 1 v, 1)
  else if v ≤ 0xFFFF then (0xFD :: natToLeBytes 2 v, 3)
  else if v ≤ 0xFFFFFFFF then (0xFE :: natToLeBytes 4 v, 5)
  else (0xFF :: natToLeBytes 8 v, 9)

/-- `impl Decodable for VarInt` (encode.rs lines 406-438): read the first
byte; markers `0xFF`/`0xFE`/`0xFD` read an 8/4/2-byte little-endian payload
and reject payloads representable in a shorter class
(`x < 0x100000000` / `x < 0x10000` / `x < 0xFD`) as `NonMinimalVarInt`;
any other first byte is the value itself. -/
def varIntDecode (s : List Nat) : Except Err (Nat × List Nat) := do
  let (n, s) ← readU8 s
  if n = 0xFF then do
    let (x, s) ← readLeNat 8 s
    if x < 0x100000000 then .error .nonMinimalVarInt else .ok (x, s)
  else if n = 0xFE then do
    let (x, s) ← readLeNat 4 s
    if x < 0x10000 then .error .nonMinimalVarInt else .ok (x, s)
  else if n = 0xFD then do
    let (x, s) ← readLeNat 2 s
    if x < 0xFD then .error .nonMinimalVarInt else .ok (x, s)
  else .ok (n, s)

/-! ## Entry points (encode.rs lines 151-181) -/

/-- `serialize` (encode.rs lines 152-156): encode into an in-memory cursor
(which never fails for the infallible encoders) and return the buffer. -/
def serialize {α : Type} (enc : α → List Nat × Nat) (v : α) : List Nat :=
  (enc v).1

/-- `deserialize_partial` (encode.rs lines 175-181): run the decoder on a
cursor over the buffer and return the value with the cursor position
(= number of consumed bytes). -/
def deserializePartial {α : Type} (dec : List Nat → Except Err (α × List Nat))
    (data : List Nat) : Except Err (α × Nat) := do
  let (rv, rest) ← dec data
  .ok (rv, data.length - rest.length)

/-- `deserialize` (encode.rs lines 160-171): `deserialize_partial`, then fail
with `ParseFailed` unless the whole buffer was consumed. -/
def deserialize {α : Type} (dec : List Nat → Except Err (α × List Nat))
    (data : List Nat) : Except Err α := do
  let (rv, consumed) ← deserializePartial dec data
  if consumed = data.length then .ok rv
  else .error (.parseFailed "data not consumed entirely when explicitly deserializing")

/-! ## Arrays, vectors and strings (encode.rs lines 488-600) -/

/-- `impl Encodable for [u8; N]` (`impl_array!`, encode.rs lines 490-496):
emit the raw bytes and return the array length. -/
def arrayEncode (a : List Nat) : List Nat × Nat := (a, a.length)

/-- `impl Decodable for [u8; N]` (`impl_array!`, encode.rs lines 498-505):
read exactly `n` bytes. -/
def arrayDecode (n : Nat) (s : List Nat) : Except Err (List Nat × List Nat) :=
  readSlice n s

/-- `impl Encodable for Vec<u8>` (encode.rs lines 579-587): the length as a
`VarInt` followed by the raw bytes, returning `vi_len + self.len()`. -/
def vecU8Encode (v : List Nat) : List Nat × Nat :=
  ((varIntEncode v.length).1 ++ v, (varIntEncode v.length).2 + v.length)

/-- `impl Decodable for Vec<u8>` (encode.rs lines 589-600): read the length
`VarInt`, reject lengths beyond `MAX_VEC_SIZE` before allocating, then read
that many raw bytes. -/
def vecU8Decode (s : List Nat) : Except Err (List Nat × List Nat) := do
  let (len, s) ← varIntDecode s
  if len > MAX_VEC_SIZE then
    .error (.oversizedVectorAllocation len MAX_VEC_SIZE)
  else
    readSlice len s

/-- `checked_mul` on `usize` (64-bit): `none` exactly when the mathematical
product does not fit in 64 bits. -/
def checkedMul (a b : Nat) : Option Nat :=
  if a * b < 2 ^ 64 then some (a * b) else none

/-- The element-decoding loop of `impl_vec!`'s `consensus_decode`
(encode.rs lines 566-569): decode `n` elements in sequence, short-circuiting
on the first element error. -/
def decodeElems {α : Type} (elemDec : List Nat → Except Err (α × List Nat)) :
    Nat → List Nat → Except Err (List α × List Nat)
  | 0, s => .ok ([], s)
  | n + 1, s => do
    let (x, s) ← elemDec s
    let (xs, s) ← decodeElems elemDec n s
    .ok (x :: xs, s)

/-- `impl Decodable for Vec<$type>` (`impl_vec!`, encode.rs lines 556-572):
read the length `VarInt`, compute `len * mem::size_of::<$type>()` with
`checked_mul` (overflow is `ParseFailed("Invalid length")`), reject byte
sizes beyond `MAX_VEC_SIZE` before allocating, then decode `len` elements. -/
def vecDecode {α : Type} (elemSize : Nat)
    (elemDec : List Nat → Except Err (α × List Nat)) (s : List Nat) :
    Except Err (List α × List Nat) := do
  let (len, s) ← varIntDecode s
  match checkedMul len elemSize with
  | none => .error (.parseFailed "Invalid length")
  | some byteSize =>
    if byteSize > MAX_VEC_SIZE then
      .error (.oversizedVectorAllocation byteSize MAX_VEC_SIZE)
    else
      decodeElems elemDec len s

/-- `impl Encodable for Vec<$type>` (`impl_vec!`, encode.rs lines 541-554):
the length as a `VarInt` followed by the element encodings, returning the
accumulated byte count. -/
def vecEncode {α : Type} (elemEnc : α → List Nat × Nat) (v : List α) :
    List Nat × Nat :=
  ((varIntEncode v.length).1 ++ (v.map (fun c => (elemEnc c).1)).flatten,
   (varIntEncode v.length).2 + (v.map (fun c => (elemEnc c).2)).sum)

/-- UTF-8 continuation byte (`0x80 ..= 0xBF`). -/
def isUtf8Cont (b : Nat) : Bool := 0x80 ≤ b && b ≤ 0xBF

/-- UTF-8 validity of a byte list, as checked by Rust's
`String::from_utf8`, following the UTF-8 well-formedness table (RFC 3629):
ASCII lead bytes stand alone; `C2..DF` take one continuation byte;
`E0/E1..EC,EE,EF/ED` take two with the usual restricted second-byte ranges
(excluding overlong forms and surrogates); `F0/F1..F3/F4` take three
(excluding overlong forms and code points beyond `U+10FFFF`). -/
def validUtf8 : List Nat → Bool
  | [] => true
  | b :: rest =>
    if b ≤ 0x7F then validUtf8 rest
    else if 0xC2 ≤ b ∧ b ≤ 0xDF then
      match rest with
      | c1 :: r => isUtf8Cont c1 && validUtf8 r
      | [] => false
    else if b = 0xE0 then
      match rest with
      | c1 :: c2 :: r =>
        (0xA0 ≤ c1 && c1 ≤ 0xBF) && isUtf8Cont c2 && validUtf8 r
      | _ => false
    else if (0xE1 ≤ b ∧ b ≤ 0xEC) ∨ b = 0xEE ∨ b = 0xEF then
      match rest with
      | c1 :: c2 :: r => isUtf8Cont c1 && isUtf8Cont c2 && validUtf8 r
      | _ => false
    else if b = 0xED then
      match rest with
      | c1 :: c2 :: r =>
        (0x80 ≤ c1 && c1 ≤ 0x9F) && isUtf8Cont c2 && validUtf8 r
      | _ => false
    else if b = 0xF0 then
      match rest with
      | c1 :: c2 :: c3 :: r =>
        (0x90 ≤ c1 && c1 ≤ 0xBF) && isUtf8Cont c2 && isUtf8Cont c3 &&
          validUtf8 r
      | _ => false
    else if 0xF1 ≤ b ∧ b ≤ 0xF3 then
      match rest with
      | c1 :: c2 :: c3 :: r =>
        isUtf8Cont c1 && isUtf8Cont c2 && isUtf8Cont c3 && validUtf8 r
      | _ => false
    else if b = 0xF4 then
      match rest with
      | c1 :: c2 :: c3 :: r =>
        (0x80 ≤ c1 && c1 ≤ 0x8F) && isUtf8Cont c2 && isUtf8Cont c3 &&
          validUtf8 r
      | _ => false
    else false

/-- `impl Encodable for String` (encode.rs lines 456-463): the UTF-8 byte
length as a `VarInt` followed by the bytes, returning `vi_len + b.len()`.
A Rust `String` is modelled by its UTF-8 byte list. -/
def stringEncode (b : List Nat) : List Nat × Nat :=
  ((varIntEncode b.length).1 ++ b, (varIntEncode b.length).2 + b.length)

/-- `impl Decodable for String` (encode.rs lines 464-469): decode a
`Vec<u8>`, then `String::from_utf8`, mapping invalid UTF-8 to
`ParseFailed("String was not valid UTF-8")`. -/
def stringDecode (s : List Nat) : Except Err (List Nat × List Nat) := do
  let (b, rest) ← vecU8Decode s
  if validUtf8 b then .ok (b, rest)
  else .error (.parseFailed "String was not valid UTF-8")

/-! ## CommandString (`src/network/message.rs` lines 13-70) -/

/-- `CommandString` wraps a `Cow<'static, str>`, modelled as the list of the
string's characters' Unicode code points. -/
structure CommandString where
  chars : List Nat
deriving DecidableEq, Repr

/-- UTF-8 encoding of one Unicode code point (what `str::as_bytes` exposes
per character), written arithmetically. -/
def utf8EncodeChar (c : Nat) : List Nat :=
  if c < 0x80 then [c]
  else if c < 0x800 then [0xC0 + c / 64, 0x80 + c % 64]
  else if c < 0x10000 then
    [0xE0 + c / 4096, 0x80 + c / 64 % 64, 0x80 + c % 64]
  else
    [0xF0 + c / 262144, 0x80 + c / 4096 % 64, 0x80 + c / 64 % 64, 0x80 + c % 64]

/-- `str::as_bytes`: the concatenated UTF-8 encodings of the characters. -/
def utf8Encode (cs : List Nat) : List Nat := (cs.map utf8EncodeChar).flatten

/-- `impl Encodable for CommandString` (message.rs lines 41-57): reject names
whose UTF-8 byte length exceeds 12 with `UnrecognizedNetworkCommand`;
otherwise copy the name's bytes into a zeroed 12-byte buffer
(`rawbytes[x] = strbytes[x]` for `x` below the name length) and encode that
buffer as a `[u8; 12]` (which returns count 12). -/
def commandStringEncode (c : CommandString) : Except Err (List Nat × Nat) :=
  let strbytes := utf8Encode c.chars
  if strbytes.length > 12 then
    .error (.unrecognizedNetworkCommand c.chars)
  else
    .ok (arrayEncode ((List.range 12).map
      (fun x => if x < strbytes.length then strbytes.getD x 0 else 0)))

/-- `impl Decodable for CommandString` (message.rs lines 59-70): decode a
`[u8; 12]`, then keep each nonzero byte as the character with that code point
(`filter_map(|&u| if u > 0 { Some(u as char) } else { None })`). -/
def commandStringDecode (s : List Nat) : Except Err (CommandString × List Nat) := do
  let (rawbytes, rest) ← arrayDecode 12 s
  .ok (⟨rawbytes.filterMap (fun u => if 0 < u then some u else none)⟩, rest)

/-- The spec's words for the decode post-state (§3, "trimmed of trailing
nulls on decode"): remove the trailing run of null bytes, keeping everything
before it.  Stated from the specification, to be compared with
`commandStringDecode`. -/
def specTrimTrailingNulls (l : List Nat) : List Nat :=
  (l.reverse.dropWhile (fun b => b = 0)).reverse

/-! ## Structural composition (`impl_consensus_encoding!`,
`src/internal_macros.rs` lines 3-28), at the three-field arity of the spec's
test record `{u32, [u8; 4], Vec<u8>}`. -/

/-- The macro's generated `consensus_encode` for a three-field record:
`len = 0; len += field_i.consensus_encode(&mut s)?` in declared order over a
shared sink — the fields' bytes are appended in order and the returned count
is the sum. -/
def recordEncode3 {α β γ : Type} (e₁ : α → List Nat × Nat)
    (e₂ : β → List Nat × Nat) (e₃ : γ → List Nat × Nat)
    (r : α × β × γ) : List Nat × Nat :=
  ((e₁ r.1).1 ++ (e₂ r.2.1).1 ++ (e₃ r.2.2).1,
   (e₁ r.1).2 + (e₂ r.2.1).2 + (e₃ r.2.2).2)

/-- The macro's generated `consensus_decode` for a three-field record: decode
each field in declared order from the same source, short-circuiting (`?`) on
the first field error. -/
def recordDecode3 {α β γ : Type} (d₁ : List Nat → Except Err (α × List Nat))
    (d₂ : List Nat → Except Err (β × List Nat))
    (d₃ : List Nat → Except Err (γ × List Nat)) (s : List Nat) :
    Except Err ((α × β × γ) × List Nat) := do
  let (a, s) ← d₁ s
  let (b, s) ← d₂ s
  let (c, s) ← d₃ s
  .ok ((a, b, c), s)

/-! ## Round-trip helper lemmas -/

theorem uintDecode_encode {w v : Nat} (hv : v < 2 ^ (8 * w)) (rest : List Nat) :
    uintDecode w ((uintEncode w v).1 ++ rest) = .ok (v, rest) := by
  simp [uintDecode, uintEncode, readLeNat_natToLeBytes, Nat.mod_eq_of_lt hv]

theorem intDecode_encode_w1 {v : Int} (hlo : -(2 ^ 7) ≤ v) (hhi : v < 2 ^ 7)
    (rest : List Nat) :
    intDecode 1 ((intEncode 1 v).1 ++ rest) = .ok (v, rest) := by
  simp only [intDecode, intEncode, readLeNat_natToLeBytes, ok_bind,
    Except.ok.injEq, Prod.mk.injEq]
  refine ⟨?_, trivial⟩
  rw [show (2 : Nat) ^ (8 * 1) = 256 from by norm_num,
    show (2 : Nat) ^ (8 * 1 - 1) = 128 from by norm_num,
    show (2 : Int) ^ (8 * 1) = 256 from by norm_num]
  rw [show (2 : Int) ^ 7 = 128 from by norm_num] at hlo hhi
  split <;> omega

theorem intDecode_encode_w2 {v : Int} (hlo : -(2 ^ 15) ≤ v) (hhi : v < 2 ^ 15)
    (rest : List Nat) :
    intDecode 2 ((intEncode 2 v).1 ++ rest) = .ok (v, rest) := by
  simp only [intDecode, intEncode, readLeNat_natToLeBytes, ok_bind,
    Except.ok.injEq, Prod.mk.injEq]
  refine ⟨?_, trivial⟩
  rw [show (2 : Nat) ^ (8 * 2) = 65536 from by norm_num,
    show (2 : Nat) ^ (8 * 2 - 1) = 32768 from by norm_num,
    show (2 : Int) ^ (8 * 2) = 65536 from by norm_num]
  rw [show (2 : Int) ^ 15 = 32768 from by norm_num] at hlo hhi
  split <;> omega

theorem intDecode_encode_w4 {v : Int} (hlo : -(2 ^ 31) ≤ v) (hhi : v < 2 ^ 31)
    (rest : List Nat) :
    intDecode 4 ((intEncode 4 v).1 ++ rest) = .ok (v, rest) := by
  simp only [intDecode, intEncode, readLeNat_natToLeBytes, ok_bind,
    Except.ok.injEq, Prod.mk.injEq]
  refine ⟨?_, trivial⟩
  rw [show (2 : Nat) ^ (8 * 4) = 4294967296 from by norm_num,
    show (2 : Nat) ^ (8 * 4 - 1) = 2147483648 from by norm_num,
    show (2 : Int) ^ (8 * 4) = 4294967296 from by norm_num]
  rw [show (2 : Int) ^ 31 = 2147483648 from by norm_num] at hlo hhi
  split <;> omega

theorem intDecode_encode_w8 {v : Int} (hlo : -(2 ^ 63) ≤ v) (hhi : v < 2 ^ 63)
    (rest : List Nat) :
    intDecode 8 ((intEncode 8 v).1 ++ rest) = .ok (v, rest) := by
  simp only [intDecode, intEncode, readLeNat_natToLeBytes, ok_bind,
    Except.ok.injEq, Prod.mk.injEq]
  refine ⟨?_, trivial⟩
  rw [show (2 : Nat) ^ (8 * 8) = 18446744073709551616 from by norm_num,
    show (2 : Nat) ^ (8 * 8 - 1) = 9223372036854775808 from by norm_num,
    show (2 : Int) ^ (8 * 8) = 18446744073709551616 from by norm_num]
  rw [show (2 : Int) ^ 63 = 9223372036854775808 from by norm_num] at hlo hhi
  split <;> omega

theorem boolDecode_encode (v : Bool) (rest : List Nat) :
    boolDecode ((boolEncode v).1 ++ rest) = .ok (v, rest) := by
  cases v <;> simp [boolDecode, boolEncode, readU8, ok_bind]

theorem varIntDecode_encode {v : Nat} (hv : v < 2 ^ 64) (rest : List Nat) :
    varIntDecode ((varIntEncode v).1 ++ rest) = .ok (v, rest) := by
  unfold varIntEncode
  split
  · next h =>
    have : natToLeBytes 1 v = [v] := by
      simp [natToLeBytes, Nat.mod_eq_of_lt (show v < 256 by omega), Nat.div_eq_of_lt (show v < 256 by omega)]
    rw [this]
    simp only [varIntDecode, List.cons_append, List.nil_append, readU8, ok_bind]
    have h1 : ¬ v = 0xFF := by omega
    have h2 : ¬ v = 0xFE := by omega
    have h3 : ¬ v = 0xFD := by omega
    simp [h1, h2, h3]
  · split
    · next h1 h2 =>
      simp only [varIntDecode, List.cons_append, readU8, ok_bind]
      norm_num
      rw [readLeNat_natToLeBytes]
      simp only [ok_bind]
      have hm : v % 2 ^ (8 * 2) = v := Nat.mod_eq_of_lt (by norm_num; omega)
      rw [hm, if_neg (by omega)]
    · split
      · next h1 h2 h3 =>
        simp only [varIntDecode, List.cons_append, readU8, ok_bind]
        norm_num
        rw [readLeNat_natToLeBytes]
        simp only [ok_bind]
        have hm : v % 2 ^ (8 * 4) = v := Nat.mod_eq_of_lt (by norm_num; omega)
        rw [hm, if_neg (by omega)]
      · next h1 h2 h3 =>
        simp only [varIntDecode, List.cons_append, readU8, ok_bind]
        norm_num
        rw [readLeNat_natToLeBytes]
        simp only [ok_bind]
        have hm : v % 2 ^ (8 * 8) = v := Nat.mod_eq_of_lt (by norm_num; omega)
        rw [hm, if_neg (by omega)]

theorem vecU8Decode_encode {v : List Nat} (hv : v.length ≤ MAX_VEC_SIZE)
    (rest : List Nat) :
    vecU8Decode ((vecU8Encode v).1 ++ rest) = .ok (v, rest) := by
  have hlen : v.length < 2 ^ 64 := by
    simp only [MAX_VEC_SIZE] at hv
    omega
  simp only [vecU8Encode, vecU8Decode, List.append_assoc,
    varIntDecode_encode hlen, ok_bind]
  rw [if_neg (by omega), readSlice_append]

theorem stringDecode_encode {b : List Nat} (hval : validUtf8 b = true)
    (hlen : b.length ≤ MAX_VEC_SIZE) (rest : List Nat) :
    stringDecode ((stringEncode b).1 ++ rest) = .ok (b, rest) := by
  have : (stringEncode b).1 = (vecU8Encode b).1 := rfl
  rw [this]
  simp [stringDecode, vecU8Decode_encode hlen, ok_bind, hval]

theorem deserialize_of_decode {α : Type}
    {dec : List Nat → Except Err (α × List Nat)} {data : List Nat} {v : α}
    (h : dec data = .ok (v, [])) :
    deserialize dec data = .ok v := by
  simp [deserialize, deserializePartial, h, ok_bind]

theorem deserialize_serialize {α : Type} {enc : α → List Nat × Nat}
    {dec : List Nat → Except Err (α × List Nat)} (v : α)
    (h : dec ((enc v).1 ++ []) = .ok (v, [])) :
    deserialize dec (serialize enc v) = .ok v :=
  deserialize_of_decode (by rwa [List.append_nil] at h)

theorem decodeElems_length {α : Type}
    (dec : List Nat → Except Err (α × List Nat)) :
    ∀ (n : Nat) (s : List Nat) (xs : List α) (s' : List Nat),
      decodeElems dec n s = .ok (xs, s') → xs.length = n := by
  intro n
  induction n with
  | zero =>
    intro s xs s' h
    simp only [decodeElems, Except.ok.injEq, Prod.mk.injEq] at h
    simp [← h.1]
  | succ k ih =>
    intro s xs s' h
    simp only [decodeElems] at h
    cases h1 : dec s with
    | error e => rw [h1, error_bind] at h; exact Except.noConfusion h
    | ok p =>
      rw [h1, ok_bind] at h
      cases h2 : decodeElems dec k p.2 with
      | error e => rw [h2, error_bind] at h; exact Except.noConfusion h
      | ok q =>
        rw [h2, ok_bind] at h
        simp only [Except.ok.injEq, Prod.mk.injEq] at h
        rw [← h.1]
        simp [ih _ _ _ h2]

theorem recordDecode3_encode3 {α β γ : Type}
    (e₁ : α → List Nat × Nat) (e₂ : β → List Nat × Nat)
    (e₃ : γ → List Nat × Nat)
    (d₁ : List Nat → Except Err (α × List Nat))
    (d₂ : List Nat → Except Err (β × List Nat))
    (d₃ : List Nat → Except Err (γ × List Nat))
    (r : α × β × γ) (rest : List Nat)
    (h₁ : ∀ t, d₁ ((e₁ r.1).1 ++ t) = .ok (r.1, t))
    (h₂ : ∀ t, d₂ ((e₂ r.2.1).1 ++ t) = .ok (r.2.1, t))
    (h₃ : ∀ t, d₃ ((e₃ r.2.2).1 ++ t) = .ok (r.2.2, t)) :
    recordDecode3 d₁ d₂ d₃ ((recordEncode3 e₁ e₂ e₃ r).1 ++ rest) =
      .ok (r, rest) := by
  simp only [recordEncode3, recordDecode3, List.append_assoc, h₁, ok_bind,
    h₂, h₃]

theorem pad_map_eq (l : List Nat) (n : Nat) (h : l.length ≤ n) :
    (List.range n).map (fun x => if x < l.length then l.getD x 0 else 0)
      = l ++ List.replicate (n - l.length) 0 := by
  apply List.ext_getElem
  · simp
    omega
  · intro i h1 h2
    simp only [List.getElem_map, List.getElem_range]
    by_cases hi : i < l.length
    · rw [if_pos hi, List.getElem_append_left hi, List.getD,
        List.get?_eq_getElem?, List.getElem?_eq_getElem hi]
      rfl
    · rw [if_neg hi, List.getElem_append_right (by omega),
        List.getElem_replicate]

theorem filterMap_pos_replicate (k : Nat) :
    (List.replicate k 0).filterMap
      (fun u => if 0 < u then some u else none) = [] := by
  induction k with
  | zero => rfl
  | succ n ih => simp [List.replicate_succ, List.filterMap_cons, ih]

theorem filterMap_pos_of_pos {l : List Nat} (h : ∀ b ∈ l, 0 < b) :
    l.filterMap (fun u => if 0 < u then some u else none) = l := by
  induction l with
  | nil => rfl
  | cons b t ih =>
    have hb := h b (List.mem_cons_self b t)
    simp only [List.filterMap_cons, if_pos hb]
    rw [ih fun x hx => h x (List.mem_cons_of_mem b hx)]

/-! ## Claim theorems -/

/-- **C2.** VarInt decode canonicality: `VarInt::consensus_decode` reads one
byte; marker `0xFD` reads a 2-byte little-endian payload and fails with
`NonMinimalVarInt` unless it exceeds `0xFC`; marker `0xFE` reads a 4-byte
payload and fails unless it exceeds `0xFFFF`; marker `0xFF` reads an 8-byte
payload and fails unless it exceeds `0xFFFFFFFF`; any first byte below
`0xFD` decodes directly as that value.  In particular `FE FF FF 00 00` and
`FD FC 00` both fail with `NonMinimalVarInt`. -/
theorem claim_C2_varint_decode_canonical :
    (∀ b rest, b < 0xFD → varIntDecode (b :: rest) = .ok (b, rest)) ∧
    (∀ bs rest, bs.length = 2 →
      varIntDecode (0xFD :: (bs ++ rest)) =
        if 0xFC < leBytesToNat bs then .ok (leBytesToNat bs, rest)
        else .error .nonMinimalVarInt) ∧
    (∀ bs rest, bs.length = 4 →
      varIntDecode (0xFE :: (bs ++ rest)) =
        if 0xFFFF < leBytesToNat bs then .ok (leBytesToNat bs, rest)
        else .error .nonMinimalVarInt) ∧
    (∀ bs rest, bs.length = 8 →
      varIntDecode (0xFF :: (bs ++ rest)) =
        if 0xFFFFFFFF < leBytesToNat bs then .ok (leBytesToNat bs, rest)
        else .error .nonMinimalVarInt) ∧
    varIntDecode [0xFE, 0xFF, 0xFF, 0x00, 0x00] = .error .nonMinimalVarInt ∧
    varIntDecode [0xFD, 0xFC, 0x00] = .error .nonMinimalVarInt := by
  refine ⟨?_, ?_, ?_, ?_, by rfl, by rfl⟩
  · intro b rest hb
    simp only [varIntDecode, readU8, ok_bind]
    rw [if_neg (by omega), if_neg (by omega), if_neg (by omega)]
  · intro bs rest hlen
    have hs := readSlice_append bs rest
    rw [hlen] at hs
    simp only [varIntDecode, readU8, ok_bind]
    norm_num
    simp only [readLeNat, hs, ok_bind]
    rcases Nat.lt_or_ge (leBytesToNat bs) 0xFD with h | h
    · rw [if_pos h, if_neg (by omega)]
    · rw [if_neg (by omega), if_pos (by omega)]
  · intro bs rest hlen
    have hs := readSlice_append bs rest
    rw [hlen] at hs
    simp only [varIntDecode, readU8, ok_bind]
    norm_num
    simp only [readLeNat, hs, ok_bind]
    rcases Nat.lt_or_ge (leBytesToNat bs) 0x10000 with h | h
    · rw [if_pos h, if_neg (by omega)]
    · rw [if_neg (by omega), if_pos (by omega)]
  · intro bs rest hlen
    have hs := readSlice_append bs rest
    rw [hlen] at hs
    simp only [varIntDecode, readU8, ok_bind]
    norm_num
    simp only [readLeNat, hs, ok_bind]
    rcases Nat.lt_or_ge (leBytesToNat bs) 0x100000000 with h | h
    · rw [if_pos h, if_neg (by omega)]
    · rw [if_neg (by omega), if_pos (by omega)]

/-- Witness for C2: the theorem applied at concrete inputs — a single-byte
value and a minimal 3-byte encoding. -/
theorem claim_C2_witness :
    varIntDecode [0x05, 0x99] = .ok (0x05, [0x99]) ∧
    varIntDecode (0xFD :: ([0x00, 0x01] ++ [])) = .ok (0x100, []) := by
  constructor
  · exact claim_C2_varint_decode_canonical.1 0x05 [0x99] (by decide)
  · rw [claim_C2_varint_decode_canonical.2.1 [0x00, 0x01] [] (by decide)]
    rfl

/-- **C3.** VarInt encode tier selection: one byte for `v ≤ 0xFC`; marker
`0xFD` plus 2-byte little-endian for `0xFC < v ≤ 0xFFFF`; marker `0xFE` plus
4-byte little-endian for `0xFFFF < v ≤ 0xFFFFFFFF`; marker `0xFF` plus
8-byte little-endian otherwise.  In particular `0x100000000` encodes to
`FF 00 00 00 00 01 00 00 00`. -/
theorem claim_C3_varint_encode_tiers :
    (∀ v, v ≤ 0xFC → varIntEncode v = ([v], 1)) ∧
    (∀ v, 0xFC < v → v ≤ 0xFFFF →
      varIntEncode v = ([0xFD, v % 256, v / 256 % 256], 3)) ∧
    (∀ v, 0xFFFF < v → v ≤ 0xFFFFFFFF →
      varIntEncode v = ([0xFE, v % 256, v / 256 % 256, v / 256 / 256 % 256,
        v / 256 / 256 / 256 % 256], 5)) ∧
    (∀ v, 0xFFFFFFFF < v →
      varIntEncode v = ([0xFF, v % 256, v / 256 % 256, v / 256 / 256 % 256,
        v / 256 / 256 / 256 % 256, v / 256 / 256 / 256 / 256 % 256,
        v / 256 / 256 / 256 / 256 / 256 % 256,
        v / 256 / 256 / 256 / 256 / 256 / 256 % 256,
        v / 256 / 256 / 256 / 256 / 256 / 256 / 256 % 256], 9)) ∧
    varIntEncode 0x100000000 =
      ([0xFF, 0x00, 0x00, 0x00, 0x00, 0x01, 0x00, 0x00, 0x00], 9) := by
  refine ⟨?_, ?_, ?_, ?_, by decide⟩
  · intro v hv
    rw [varIntEncode, if_pos hv]
    simp [natToLeBytes, Nat.mod_eq_of_lt (show v < 256 by omega)]
  · intro v h1 h2
    rw [varIntEncode, if_neg (by omega), if_pos (by omega)]
    simp [natToLeBytes]
  · intro v h1 h2
    rw [varIntEncode, if_neg (by omega), if_neg (by omega), if_pos (by omega)]
    simp [natToLeBytes]
  · intro v h1
    rw [varIntEncode, if_neg (by omega), if_neg (by omega), if_neg (by omega)]
    simp [natToLeBytes]

/-- Witness for C3: the theorem applied at one concrete magnitude per tier. -/
theorem claim_C3_witness :
    varIntEncode 0x42 = ([0x42], 1) ∧
    varIntEncode 0x1234 = ([0xFD, 0x34, 0x12], 3) ∧
    varIntEncode 0xDEADBEEF = ([0xFE, 0xEF, 0xBE, 0xAD, 0xDE], 5) ∧
    varIntEncode 0x0102030405 =
      ([0xFF, 0x05, 0x04, 0x03, 0x02, 0x01, 0x00, 0x00, 0x00], 9) := by
  refine ⟨claim_C3_varint_encode_tiers.1 0x42 (by decide), ?_, ?_, ?_⟩
  · rw [claim_C3_varint_encode_tiers.2.1 0x1234 (by decide) (by decide)]
  · rw [claim_C3_varint_encode_tiers.2.2.1 0xDEADBEEF (by decide) (by decide)]
  · rw [claim_C3_varint_encode_tiers.2.2.2.1 0x0102030405 (by decide)]

/-- **C7 (code bug).** The claim states `VarInt::len` returns the minimal
class length — in particular 5 for `0x10000 ≤ v ≤ 0xFFFFFFFF` — and always
equals the byte count `consensus_encode` returns.  In the source the second
match arm `0xFC ... 0xFFFF => 3` already covers the third arm's range
`0xFD ... 0xFFFF => 5`, so the 5-byte class is unreachable and every
magnitude in `0x10000 ..= 0xFFFFFFFF` takes the wildcard arm: `len` returns
9 where `consensus_encode` writes and returns 5, contradicting `len`'s own
doc comment ("5 for 0x10000...(2^32-1)"). -/
theorem claim_C7_len_encode_mismatch :
    varIntLen 0x10000 = 9 ∧ (varIntEncode 0x10000).2 = 5 ∧
    varIntLen 0xFFFFFFFF = 9 ∧ (varIntEncode 0xFFFFFFFF).2 = 5 ∧
    varIntLen 0xFC = 1 ∧ varIntLen 0xFD = 3 ∧ varIntLen 0xFFFF = 3 ∧
    varIntLen 0x100000000 = 9 := by
  refine ⟨by decide, ?_, by decide, ?_, by decide, by decide, by decide, by decide⟩
  · rw [varIntEncode, if_neg (by decide), if_neg (by decide), if_pos (by decide)]
  · rw [varIntEncode, if_neg (by decide), if_neg (by decide), if_pos (by decide)]

/-- **C5.** Exact-consumption semantics of the entry points: `deserialize`
returns the decoded value exactly when the decode consumed the whole buffer
and fails with `ParseFailed` when trailing bytes remain; `deserialize_partial`
runs the identical decode and returns `(value, consumed)` without requiring
full consumption; decoder errors propagate through both.  In particular, on
one encoded `bool` plus one trailing byte, `deserialize` fails with a parse
error while `deserialize_partial` succeeds with `consumed = 1`. -/
theorem claim_C5_exact_consumption :
    (∀ (α : Type) (dec : List Nat → Except Err (α × List Nat))
      (data : List Nat) (v : α) (rest : List Nat),
      dec data = .ok (v, rest) → rest.length ≤ data.length →
      (deserialize dec data =
        if rest.length = 0 then .ok v
        else .error
          (.parseFailed "data not consumed entirely when explicitly deserializing")) ∧
      deserializePartial dec data = .ok (v, data.length - rest.length)) ∧
    (∀ (α : Type) (dec : List Nat → Except Err (α × List Nat))
      (data : List Nat) (e : Err), dec data = .error e →
      deserialize dec data = .error e ∧ deserializePartial dec data = .error e) ∧
    deserialize boolDecode [0x01, 0x2A] =
      .error (.parseFailed "data not consumed entirely when explicitly deserializing") ∧
    deserializePartial boolDecode [0x01, 0x2A] = .ok (true, 1) := by
  refine ⟨?_, ?_, by rfl, by rfl⟩
  · intro α dec data v rest hdec hle
    refine ⟨?_, by simp [deserializePartial, hdec, ok_bind]⟩
    simp only [deserialize, deserializePartial, hdec, ok_bind]
    rcases Nat.eq_zero_or_pos rest.length with h0 | h0
    · rw [if_pos (by omega), if_pos h0]
    · rw [if_neg (by omega), if_neg (by omega)]
  · intro α dec data e hdec
    exact ⟨by simp [deserialize, deserializePartial, hdec, error_bind],
           by simp [deserializePartial, hdec, error_bind]⟩

/-- Witness for C5: the theorem applied to the `bool` decoder on the buffer
`[0x01]` (full consumption) and to a decoder error on the empty buffer. -/
theorem claim_C5_witness :
    (deserialize boolDecode [0x01] =
      if ([] : List Nat).length = 0 then .ok true
      else .error
        (.parseFailed "data not consumed entirely when explicitly deserializing")) ∧
    deserializePartial boolDecode [0x01] = .ok (true, 1) ∧
    deserialize boolDecode [] = .error .ioError := by
  have h := claim_C5_exact_consumption.1 Bool boolDecode [0x01] true []
    (by rfl) (by decide)
  have h2 := claim_C5_exact_consumption.2.1 Bool boolDecode [] .ioError (by rfl)
  exact ⟨h.1, h.2, h2.1⟩

/-- **C4.** Oversized-sequence rejection before allocation: after reading the
length `VarInt`, the generic `Vec<T>` decoder computes `len * element_size`
with overflow-checked multiplication (failing with a parse error on
overflow), rejects byte sizes above the 4,000,000 ceiling with
`OversizedVectorAllocation {requested, max}`, and both failures happen
independently of the bytes that follow the prefix (no element is examined);
when the check passes it decodes exactly `len` elements in sequence,
propagating the first element error; the raw `Vec<u8>` decoder rejects
`len > 4,000,000` the same way. -/
theorem claim_C4_oversized_rejection :
    (∀ (α : Type) (elemSize : Nat)
      (elemDec : List Nat → Except Err (α × List Nat)) (len : Nat)
      (tail : List Nat), len < 2 ^ 64 →
      (2 ^ 64 ≤ len * elemSize →
        vecDecode elemSize elemDec ((varIntEncode len).1 ++ tail) =
          .error (.parseFailed "Invalid length")) ∧
      (len * elemSize < 2 ^ 64 → MAX_VEC_SIZE < len * elemSize →
        vecDecode elemSize elemDec ((varIntEncode len).1 ++ tail) =
          .error (.oversizedVectorAllocation (len * elemSize) MAX_VEC_SIZE)) ∧
      (len * elemSize ≤ MAX_VEC_SIZE →
        vecDecode elemSize elemDec ((varIntEncode len).1 ++ tail) =
          decodeElems elemDec len tail) ∧
      (len * elemSize ≤ MAX_VEC_SIZE → 0 < len → ∀ e, elemDec tail = .error e →
        vecDecode elemSize elemDec ((varIntEncode len).1 ++ tail) = .error e) ∧
      (∀ xs s', vecDecode elemSize elemDec ((varIntEncode len).1 ++ tail) =
          .ok (xs, s') → xs.length = len)) ∧
    (∀ (len : Nat) (tail : List Nat), len < 2 ^ 64 → MAX_VEC_SIZE < len →
      vecU8Decode ((varIntEncode len).1 ++ tail) =
        .error (.oversizedVectorAllocation len MAX_VEC_SIZE)) := by
  constructor
  · intro α elemSize elemDec len tail hlen
    have hvi := varIntDecode_encode hlen tail
    have hbody : vecDecode elemSize elemDec ((varIntEncode len).1 ++ tail) =
        match checkedMul len elemSize with
        | none => .error (.parseFailed "Invalid length")
        | some byteSize =>
          if byteSize > MAX_VEC_SIZE then
            .error (.oversizedVectorAllocation byteSize MAX_VEC_SIZE)
          else decodeElems elemDec len tail := by
      simp only [vecDecode, hvi, ok_bind]
    refine ⟨?_, ?_, ?_, ?_, ?_⟩
    · intro hovf
      rw [hbody, checkedMul, if_neg (by omega)]
    · intro hfit hbig
      rw [hbody, checkedMul, if_pos hfit]
      simp only [MAX_VEC_SIZE] at hbig ⊢
      rw [if_pos (by omega)]
    · intro hok
      rw [hbody, checkedMul,
        if_pos (by simp only [MAX_VEC_SIZE] at hok; omega)]
      simp only [MAX_VEC_SIZE] at hok ⊢
      rw [if_neg (by omega)]
    · intro hok hpos e he
      rw [hbody, checkedMul,
        if_pos (by simp only [MAX_VEC_SIZE] at hok; omega)]
      simp only [MAX_VEC_SIZE] at hok ⊢
      rw [if_neg (by omega)]
      obtain ⟨k, rfl⟩ : ∃ k, len = k + 1 := ⟨len - 1, by omega⟩
      simp only [decodeElems, he, error_bind]
    · intro xs s' hdec
      rw [hbody, checkedMul] at hdec
      split at hdec
      · exact Except.noConfusion hdec
      · split at hdec
        · exact Except.noConfusion hdec
        · exact decodeElems_length elemDec len tail xs s' hdec
  · intro len tail hlen hbig
    have hvi := varIntDecode_encode hlen tail
    simp only [vecU8Decode, hvi, ok_bind]
    rw [if_pos hbig]

/-- Witness for C4: the theorem applied at concrete lengths — an
overflowing count for 8-byte elements, an oversized byte size, a passing
decode of two `u64`s, and an oversized raw byte vector. -/
theorem claim_C4_witness :
    vecDecode 8 (uintDecode 8) ((varIntEncode 0x4000000000000000).1 ++ []) =
      .error (.parseFailed "Invalid length") ∧
    vecDecode 8 (uintDecode 8) ((varIntEncode 1000000).1 ++ []) =
      .error (.oversizedVectorAllocation 8000000 MAX_VEC_SIZE) ∧
    vecDecode 8 (uintDecode 8)
        ((varIntEncode 2).1 ++ [1, 0, 0, 0, 0, 0, 0, 0, 2, 0, 0, 0, 0, 0, 0, 0]) =
      decodeElems (uintDecode 8) 2 [1, 0, 0, 0, 0, 0, 0, 0, 2, 0, 0, 0, 0, 0, 0, 0] ∧
    vecU8Decode ((varIntEncode 4000001).1 ++ []) =
      .error (.oversizedVectorAllocation 4000001 MAX_VEC_SIZE) := by
  have h1 := (claim_C4_oversized_rejection.1 Nat 8 (uintDecode 8)
    0x4000000000000000 [] (by norm_num)).1 (by norm_num)
  have h2 := (claim_C4_oversized_rejection.1 Nat 8 (uintDecode 8)
    1000000 [] (by norm_num)).2.1 (by norm_num) (by norm_num [MAX_VEC_SIZE])
  have h3 := (claim_C4_oversized_rejection.1 Nat 8 (uintDecode 8)
    2 [1, 0, 0, 0, 0, 0, 0, 0, 2, 0, 0, 0, 0, 0, 0, 0] (by norm_num)).2.2.1
    (by norm_num [MAX_VEC_SIZE])
  have h4 := claim_C4_oversized_rejection.2 4000001 [] (by norm_num)
    (by norm_num [MAX_VEC_SIZE])
  exact ⟨h1, by rw [h2], h3, h4⟩

/-- **C8.** Command-name encode budget: a `CommandString` whose UTF-8 byte
length is at most 12 encodes to exactly 12 bytes — the name's bytes
right-padded with nulls — returning count 12; a longer name fails encode
with `UnrecognizedNetworkCommand` (never silent truncation). -/
theorem claim_C8_command_encode_budget :
    ∀ c : CommandString,
      ((utf8Encode c.chars).length ≤ 12 →
        commandStringEncode c =
          .ok (utf8Encode c.chars ++
            List.replicate (12 - (utf8Encode c.chars).length) 0, 12) ∧
        (utf8Encode c.chars ++
          List.replicate (12 - (utf8Encode c.chars).length) 0).length = 12) ∧
      (12 < (utf8Encode c.chars).length →
        commandStringEncode c = .error (.unrecognizedNetworkCommand c.chars)) := by
  intro c
  constructor
  · intro hle
    constructor
    · simp only [commandStringEncode]
      rw [if_neg (by omega), pad_map_eq _ 12 hle]
      refine congrArg Except.ok (Prod.ext rfl ?_)
      simp [arrayEncode]
      omega
    · simp
      omega
  · intro hgt
    simp only [commandStringEncode]
    rw [if_pos (by omega)]

/-- Witness for C8: the theorem applied to the 3-byte ASCII name `"tx"` +
`"x"` (code points `[0x74, 0x78, 0x78]`), whose UTF-8 bytes equal the code
points. -/
theorem claim_C8_witness :
    (utf8Encode (CommandString.mk [0x74, 0x78, 0x78]).chars).length ≤ 12 ∧
    commandStringEncode (CommandString.mk [0x74, 0x78, 0x78]) =
      .ok ([0x74, 0x78, 0x78, 0, 0, 0, 0, 0, 0, 0, 0, 0], 12) := by
  have h := (claim_C8_command_encode_budget
    (CommandString.mk [0x74, 0x78, 0x78])).1 (by decide)
  refine ⟨by decide, ?_⟩
  rw [h.1]
  rfl

/-- **C9 counterexample.** The claim says decode of every 12-byte buffer
trims only the *trailing* nulls, preserving all bytes before the padding;
but the source's `filter_map` drops every null byte: on
`61 00 62 00…00` decode yields `"ab"` while trailing-null trimming would
keep `61 00 62`. -/
theorem claim_C9_counterexample :
    commandStringDecode [0x61, 0x00, 0x62, 0, 0, 0, 0, 0, 0, 0, 0, 0] =
      .ok (⟨[0x61, 0x62]⟩, []) ∧
    specTrimTrailingNulls [0x61, 0x00, 0x62, 0, 0, 0, 0, 0, 0, 0, 0, 0] =
      [0x61, 0x00, 0x62] ∧
    CommandString.mk [0x61, 0x62] ≠ ⟨[0x61, 0x00, 0x62]⟩ := by
  refine ⟨by rfl, by rfl, by decide⟩

/-- **C9 (amended).** Command-name decode: for every 12-byte wire buffer,
`CommandString::consensus_decode` returns the buffer's *nonzero* bytes, in
order, as characters with the same code points — every null byte is removed,
wherever it occurs, not only the trailing padding.  For buffers whose nulls
occur only as trailing padding of a null-free name this coincides with
trimming the trailing nulls. -/
theorem claim_C9_command_decode_strips_nulls :
    ∀ raw rest, raw.length = 12 →
      commandStringDecode (raw ++ rest) =
        .ok (⟨raw.filterMap (fun u => if 0 < u then some u else none)⟩, rest) ∧
      (∀ name : List Nat, (∀ b ∈ name, 0 < b) →
        raw = name ++ List.replicate (12 - name.length) 0 →
        commandStringDecode (raw ++ rest) = .ok (⟨name⟩, rest)) := by
  intro raw rest hlen
  have hs := readSlice_append raw rest
  rw [hlen] at hs
  have hdec : commandStringDecode (raw ++ rest) =
      .ok (⟨raw.filterMap (fun u => if 0 < u then some u else none)⟩, rest) := by
    simp only [commandStringDecode, arrayDecode, hs, ok_bind]
  refine ⟨hdec, ?_⟩
  intro name hpos hshape
  rw [hdec, hshape, List.filterMap_append, filterMap_pos_of_pos hpos,
    filterMap_pos_replicate, List.append_nil]

/-- Witness for C9: the amended theorem applied to the buffer holding the
null-free name `61 62 63` padded with nine nulls. -/
theorem claim_C9_witness :
    commandStringDecode ([0x61, 0x62, 0x63, 0, 0, 0, 0, 0, 0, 0, 0, 0] ++ []) =
      .ok (⟨[0x61, 0x62, 0x63]⟩, []) := by
  have h := (claim_C9_command_decode_strips_nulls
    [0x61, 0x62, 0x63, 0, 0, 0, 0, 0, 0, 0, 0, 0] [] (by rfl)).2
    [0x61, 0x62, 0x63] (by decide) (by rfl)
  exact h

/-- **C10.** `CommandString::consensus_decode` is total whenever 12 bytes
can be read: every 12-byte buffer content — nulls anywhere, non-ASCII bytes
included — decodes successfully to some string. -/
theorem claim_C10_command_decode_total :
    ∀ raw rest, raw.length = 12 →
      ∃ c : CommandString, commandStringDecode (raw ++ rest) = .ok (c, rest) := by
  intro raw rest hlen
  have hs := readSlice_append raw rest
  rw [hlen] at hs
  exact ⟨⟨raw.filterMap (fun u => if 0 < u then some u else none)⟩,
    by simp only [commandStringDecode, arrayDecode, hs, ok_bind]⟩

/-- Witness for C10: the theorem applied to a buffer with non-ASCII bytes
and interior nulls. -/
theorem claim_C10_witness :
    ([0xC3, 0x28, 0x00, 0x01, 0xFF, 0x00, 0x80, 0x00, 0x00, 0x00, 0x00, 0x00] :
      List Nat).length = 12 ∧
    ∃ c : CommandString,
      commandStringDecode
        ([0xC3, 0x28, 0x00, 0x01, 0xFF, 0x00, 0x80, 0x00, 0x00, 0x00, 0x00, 0x00] ++ []) =
        .ok (c, []) :=
  ⟨by rfl, claim_C10_command_decode_total
    [0xC3, 0x28, 0x00, 0x01, 0xFF, 0x00, 0x80, 0x00, 0x00, 0x00, 0x00, 0x00] []
    (by rfl)⟩

/-- **C6.** Structural composition: a composite record codec produced by the
generic rule (`impl_consensus_encoding!`) emits each declared field's
encoding in declared order, returns the sum of the fields' byte counts,
decodes the record field-by-field in the same order from the same source,
short-circuits on the first field's error, and — when each field codec
round-trips on the record's field values — decodes the concatenated encoding
back to an equal record. -/
theorem claim_C6_structural_composition :
    ∀ (α β γ : Type) (e₁ : α → List Nat × Nat) (e₂ : β → List Nat × Nat)
      (e₃ : γ → List Nat × Nat)
      (d₁ : List Nat → Except Err (α × List Nat))
      (d₂ : List Nat → Except Err (β × List Nat))
      (d₃ : List Nat → Except Err (γ × List Nat))
      (r : α × β × γ) (rest : List Nat),
      (recordEncode3 e₁ e₂ e₃ r).1 =
        (e₁ r.1).1 ++ (e₂ r.2.1).1 ++ (e₃ r.2.2).1 ∧
      (recordEncode3 e₁ e₂ e₃ r).2 =
        (e₁ r.1).2 + (e₂ r.2.1).2 + (e₃ r.2.2).2 ∧
      ((∀ t, d₁ ((e₁ r.1).1 ++ t) = .ok (r.1, t)) →
       (∀ t, d₂ ((e₂ r.2.1).1 ++ t) = .ok (r.2.1, t)) →
       (∀ t, d₃ ((e₃ r.2.2).1 ++ t) = .ok (r.2.2, t)) →
        recordDecode3 d₁ d₂ d₃ ((recordEncode3 e₁ e₂ e₃ r).1 ++ rest) =
          .ok (r, rest)) ∧
      (∀ s e, d₁ s = .error e → recordDecode3 d₁ d₂ d₃ s = .error e) ∧
      (∀ s a s₁ e, d₁ s = .ok (a, s₁) → d₂ s₁ = .error e →
        recordDecode3 d₁ d₂ d₃ s = .error e) := by
  intro α β γ e₁ e₂ e₃ d₁ d₂ d₃ r rest
  refine ⟨rfl, rfl, ?_, ?_, ?_⟩
  · intro h₁ h₂ h₃
    exact recordDecode3_encode3 e₁ e₂ e₃ d₁ d₂ d₃ r rest h₁ h₂ h₃
  · intro s e h
    simp only [recordDecode3, h, error_bind]
  · intro s a s₁ e h1 h2
    simp only [recordDecode3, h1, ok_bind, h2, error_bind]

/-- Witness for C6: the theorem applied to the spec's test record
`{u32, [u8; 4], Vec<u8>}` at `(0xDEADBEEF, [1, 2, 3, 4], [9, 8, 7])`, with
the field round-trip hypotheses discharged by the per-type round-trip
lemmas. -/
theorem claim_C6_witness :
    recordDecode3 (uintDecode 4) (arrayDecode 4) vecU8Decode
      ((recordEncode3 (uintEncode 4) arrayEncode vecU8Encode
        (0xDEADBEEF, [1, 2, 3, 4], [9, 8, 7])).1 ++ []) =
      .ok ((0xDEADBEEF, [1, 2, 3, 4], [9, 8, 7]), []) ∧
    (recordEncode3 (uintEncode 4) arrayEncode vecU8Encode
      (0xDEADBEEF, [1, 2, 3, 4], [9, 8, 7])).1 =
      [0xEF, 0xBE, 0xAD, 0xDE] ++ [1, 2, 3, 4] ++ [3, 9, 8, 7] := by
  constructor
  · exact (claim_C6_structural_composition Nat (List Nat) (List Nat)
      (uintEncode 4) arrayEncode vecU8Encode
      (uintDecode 4) (arrayDecode 4) vecU8Decode
      (0xDEADBEEF, [1, 2, 3, 4], [9, 8, 7]) []).2.2.1
      (fun t => uintDecode_encode (by norm_num) t)
      (fun t => by
        have h := readSlice_append [1, 2, 3, 4] t
        simpa [arrayDecode, arrayEncode] using h)
      (fun t => vecU8Decode_encode (by decide) t)
  · rfl

/-- **C1.** Round-trip law: for every supported wire type — fixed-width
unsigned and signed integers, `bool`, `VarInt`, fixed-size byte arrays,
`Vec<u8>`, `String`, and composite records built by the structural
composition rule — and every value in the type's legal domain,
`deserialize (serialize v)` succeeds and returns `v`, consuming the whole
buffer. -/
theorem claim_C1_roundtrip :
    (∀ v, v < 2 ^ 8 →
      deserialize (uintDecode 1) (serialize (uintEncode 1) v) = .ok v) ∧
    (∀ v, v < 2 ^ 16 →
      deserialize (uintDecode 2) (serialize (uintEncode 2) v) = .ok v) ∧
    (∀ v, v < 2 ^ 32 →
      deserialize (uintDecode 4) (serialize (uintEncode 4) v) = .ok v) ∧
    (∀ v, v < 2 ^ 64 →
      deserialize (uintDecode 8) (serialize (uintEncode 8) v) = .ok v) ∧
    (∀ v : Int, -(2 ^ 7) ≤ v → v < 2 ^ 7 →
      deserialize (intDecode 1) (serialize (intEncode 1) v) = .ok v) ∧
    (∀ v : Int, -(2 ^ 15) ≤ v → v < 2 ^ 15 →
      deserialize (intDecode 2) (serialize (intEncode 2) v) = .ok v) ∧
    (∀ v : Int, -(2 ^ 31) ≤ v → v < 2 ^ 31 →
      deserialize (intDecode 4) (serialize (intEncode 4) v) = .ok v) ∧
    (∀ v : Int, -(2 ^ 63) ≤ v → v < 2 ^ 63 →
      deserialize (intDecode 8) (serialize (intEncode 8) v) = .ok v) ∧
    (∀ b : Bool, deserialize boolDecode (serialize boolEncode b) = .ok b) ∧
    (∀ v, v < 2 ^ 64 →
      deserialize varIntDecode (serialize varIntEncode v) = .ok v) ∧
    (∀ (n : Nat) (a : List Nat), a.length = n → (∀ b ∈ a, b < 256) →
      deserialize (arrayDecode n) (serialize arrayEncode a) = .ok a) ∧
    (∀ v : List Nat, v.length ≤ MAX_VEC_SIZE → (∀ b ∈ v, b < 256) →
      deserialize vecU8Decode (serialize vecU8Encode v) = .ok v) ∧
    (∀ b : List Nat, validUtf8 b = true → b.length ≤ MAX_VEC_SIZE →
      deserialize stringDecode (serialize stringEncode b) = .ok b) ∧
    (∀ (a : Nat) (arr c : List Nat),
      a < 2 ^ 32 → arr.length = 4 → c.length ≤ MAX_VEC_SIZE →
      deserialize (recordDecode3 (uintDecode 4) (arrayDecode 4) vecU8Decode)
        (serialize (recordEncode3 (uintEncode 4) arrayEncode vecU8Encode)
          (a, arr, c)) = .ok (a, arr, c)) := by
  refine ⟨?_, ?_, ?_, ?_, ?_, ?_, ?_, ?_, ?_, ?_, ?_, ?_, ?_, ?_⟩
  · exact fun v hv => deserialize_serialize v (uintDecode_encode hv [])
  · exact fun v hv => deserialize_serialize v (uintDecode_encode hv [])
  · exact fun v hv => deserialize_serialize v (uintDecode_encode hv [])
  · exact fun v hv => deserialize_serialize v (uintDecode_encode hv [])
  · exact fun v h1 h2 => deserialize_serialize v (intDecode_encode_w1 h1 h2 [])
  · exact fun v h1 h2 => deserialize_serialize v (intDecode_encode_w2 h1 h2 [])
  · exact fun v h1 h2 => deserialize_serialize v (intDecode_encode_w4 h1 h2 [])
  · exact fun v h1 h2 => deserialize_serialize v (intDecode_encode_w8 h1 h2 [])
  · exact fun b => deserialize_serialize b (boolDecode_encode b [])
  · exact fun v hv => deserialize_serialize v (varIntDecode_encode hv [])
  · intro n a hlen _
    refine deserialize_serialize a ?_
    have h := readSlice_append a []
    rw [hlen] at h
    simpa [arrayDecode, arrayEncode] using h
  · exact fun v hv _ => deserialize_serialize v (vecU8Decode_encode hv [])
  · exact fun b hval hlen =>
      deserialize_serialize b (stringDecode_encode hval hlen [])
  · intro a arr c ha harr hc
    refine deserialize_serialize (a, arr, c) ?_
    exact recordDecode3_encode3 (uintEncode 4) arrayEncode vecU8Encode
      (uintDecode 4) (arrayDecode 4) vecU8Decode (a, arr, c) []
      (fun t => uintDecode_encode ha t)
      (fun t => by
        have h := readSlice_append arr t
        rw [harr] at h
        simpa [arrayDecode, arrayEncode] using h)
      (fun t => vecU8Decode_encode hc t)

/-- Witness for C1: the theorem applied at one concrete legal value per
supported type. -/
theorem claim_C1_witness :
    deserialize (uintDecode 1) (serialize (uintEncode 1) 0xAB) = .ok 0xAB ∧
    deserialize (uintDecode 2) (serialize (uintEncode 2) 0xDEAD) = .ok 0xDEAD ∧
    deserialize (uintDecode 4) (serialize (uintEncode 4) 0xDEADBEEF) =
      .ok 0xDEADBEEF ∧
    deserialize (uintDecode 8) (serialize (uintEncode 8) 0x1badcafedeadbeef) =
      .ok 0x1badcafedeadbeef ∧
    deserialize (intDecode 1) (serialize (intEncode 1) (-100)) = .ok (-100) ∧
    deserialize (intDecode 2) (serialize (intEncode 2) (-30000)) = .ok (-30000) ∧
    deserialize (intDecode 4) (serialize (intEncode 4) (-2000000000)) =
      .ok (-2000000000) ∧
    deserialize (intDecode 8) (serialize (intEncode 8) (-5000000000)) =
      .ok (-5000000000) ∧
    deserialize boolDecode (serialize boolEncode true) = .ok true ∧
    deserialize varIntDecode (serialize varIntEncode 0x100000000) =
      .ok 0x100000000 ∧
    deserialize (arrayDecode 4) (serialize arrayEncode [0xDE, 0xAD, 0xBE, 0xEF]) =
      .ok [0xDE, 0xAD, 0xBE, 0xEF] ∧
    deserialize vecU8Decode (serialize vecU8Encode [1, 2, 3]) = .ok [1, 2, 3] ∧
    deserialize stringDecode (serialize stringEncode [0x68, 0x69]) =
      .ok [0x68, 0x69] ∧
    deserialize (recordDecode3 (uintDecode 4) (arrayDecode 4) vecU8Decode)
      (serialize (recordEncode3 (uintEncode 4) arrayEncode vecU8Encode)
        (7, [1, 2, 3, 4], [5, 6])) = .ok (7, [1, 2, 3, 4], [5, 6]) := by
  obtain ⟨h1, h2, h3, h4, h5, h6, h7, h8, h9, h10, h11, h12, h13, h14⟩ :=
    claim_C1_roundtrip
  exact ⟨h1 0xAB (by norm_num), h2 0xDEAD (by norm_num),
    h3 0xDEADBEEF (by norm_num), h4 0x1badcafedeadbeef (by norm_num),
    h5 (-100) (by norm_num) (by norm_num),
    h6 (-30000) (by norm_num) (by norm_num),
    h7 (-2000000000) (by norm_num) (by norm_num),
    h8 (-5000000000) (by norm_num) (by norm_num),
    h9 true, h10 0x100000000 (by norm_num),
    h11 4 [0xDE, 0xAD, 0xBE, 0xEF] (by decide) (by decide),
    h12 [1, 2, 3] (by decide) (by decide),
    h13 [0x68, 0x69] (by decide) (by decide),
    h14 7 [1, 2, 3, 4] [5, 6] (by norm_num) (by decide) (by decide)⟩

end BitcoinEnc
